import Mathlib

/-!
Verification of the Funnel tokenizer core
(`paddlenlp/transformers/funnel/tokenizer.py`).

The development shallowly embeds the pure algorithmic core of the file:
the truncation engine (`truncate_sequences`), the special-token layout
helpers (`create_token_type_ids_from_sequences`,
`build_offset_mapping_with_special_tokens`, `get_special_tokens_mask`),
the sliding-window batch encoder loop of `batch_encode`, the
unknown-token substitution of `custom_tokenize`, and the character
mapping construction of `rematch`.

Token ids are modelled as `Nat`, token-id sequences as `List Nat`, an
optional pair sequence as `Option (List Nat)`, offsets as `Nat × Nat`.
Fallible Python code (assertions, `raise`, out-of-range indexing) is
modelled with `Except String` / `Option`.  Externally supplied
capabilities (the vocabulary, the basic and WordPiece tokenizers, the
per-character Unicode normalization, `build_inputs_with_special_tokens`
of the tokenizer base class) are either taken as function parameters or
modelled from the spec, as indicated in the doc comments.
-/

/-! ## Truncation engine (`truncate_sequences`, source lines 257-320) -/

/-- Truncation strategies accepted by `truncate_sequences`. -/
inductive TruncationStrategy
  | longestFirst
  | onlyFirst
  | onlySecond
  | doNotTruncate
deriving DecidableEq

/-- Length of the optional pair sequence, read as 0 when absent
(as Python `len(pair_ids)` guarded by `pair_ids is None`). -/
def pairLen (pairIds : Option (List Nat)) : Nat := (pairIds.getD []).length

/-- Inner removal loop of the `longest_first` strategy.  The source has
two copies of the loop: one entered when `pair_ids is None or
len(ids) <= len(pair_ids)` whose removal test is
`len(ids) >= len(pair_ids)` (`strict = false` here), and one entered
otherwise whose removal test is `len(ids) > len(pair_ids)`
(`strict = true`).  Removing from `ids` evaluates `ids[-1]`, which in
Python raises an `IndexError` on an empty list; removing from
`pair_ids` uses only slicing and cannot fail. -/
def longestFirstLoop (strict : Bool) :
    Nat → List Nat → Option (List Nat) → List Nat →
    Except String (List Nat × Option (List Nat) × List Nat)
  | 0, ids, pairIds, overflowing => .ok (ids, pairIds, overflowing)
  | n+1, ids, pairIds, overflowing =>
    if pairIds = none ∨
        (if strict then pairLen pairIds < ids.length else pairLen pairIds ≤ ids.length) then
      match ids.getLast? with
      | none => .error "IndexError"
      | some x => longestFirstLoop strict n ids.dropLast pairIds (x :: overflowing)
    else
      longestFirstLoop strict n ids (pairIds.map List.dropLast) overflowing

/-- `FunnelTokenizer.truncate_sequences` (source lines 257-320).
`num_tokens_to_remove <= 0` is the `= 0` case for `Nat`.  Python slices
`ids[:-n]` / `ids[-w:]` (with `n, w > 0`) become `take (len - n)` /
`drop (len - w)`.  The unknown-strategy `ValueError` branch disappears
because the strategy argument is an inductive type. -/
def truncateSequences (ids : List Nat) (pairIds : Option (List Nat))
    (numTokensToRemove : Nat) (truncationStrategy : TruncationStrategy) (stride : Nat) :
    Except String (List Nat × Option (List Nat) × List Nat) :=
  if numTokensToRemove = 0 then .ok (ids, pairIds, [])
  else
    match truncationStrategy with
    | .longestFirst =>
      match (if pairIds = none ∨ ids.length ≤ pairLen pairIds
             then longestFirstLoop false numTokensToRemove ids pairIds []
             else longestFirstLoop true numTokensToRemove ids pairIds []) with
      | .error e => .error e
      | .ok (ids2, pair2, overflowing) =>
        let windowLen := min ids2.length stride
        if 0 < windowLen then
          .ok (ids2, pair2, ids2.drop (ids2.length - windowLen) ++ overflowing)
        else
          .ok (ids2, pair2, overflowing)
    | .onlyFirst =>
      if numTokensToRemove < ids.length then
        let windowLen := min ids.length (stride + numTokensToRemove)
        .ok (ids.take (ids.length - numTokensToRemove), pairIds,
             ids.drop (ids.length - windowLen))
      else .error "AssertionError"
    | .onlySecond =>
      match pairIds with
      | none => .error "AssertionError"
      | some p =>
        if numTokensToRemove < p.length then
          let windowLen := min p.length (stride + numTokensToRemove)
          .ok (ids, some (p.take (p.length - numTokensToRemove)),
               p.drop (p.length - windowLen))
        else .error "AssertionError"
    | .doNotTruncate => .error "ValueError"

/-! ## Token type ids (`create_token_type_ids_from_sequences`, lines 223-228) -/

/-- `FunnelTokenizer.cls_token_type_id` (source line 35). -/
def clsTokenTypeId : Nat := 2

/-- `FunnelTokenizer.create_token_type_ids_from_sequences`
(source lines 223-228).  `sepTokenId` and `clsTokenId` are the external
special-token ids; only the lengths of `[self.sep_token_id]` and
`[self.cls_token_id]` matter. -/
def createTokenTypeIdsFromSequences (sepTokenId clsTokenId : Nat)
    (tokenIds0 : List Nat) (tokenIds1 : Option (List Nat)) : List Nat :=
  let sepL := [sepTokenId]
  let clsL := [clsTokenId]
  match tokenIds1 with
  | none =>
    List.replicate clsL.length clsTokenTypeId ++
      List.replicate (tokenIds0 ++ sepL).length 0
  | some t1 =>
    List.replicate clsL.length clsTokenTypeId ++
      List.replicate (tokenIds0 ++ sepL).length 0 ++
      List.replicate (t1 ++ sepL).length 1

/-- C10: `create_token_type_ids_from_sequences` gives the leading CLS
position token type id 2 (`cls_token_type_id`), not 0: the result is
`[2]` followed by `len(token_ids_0) + 1` zeros when `token_ids_1` is
absent, and additionally `len(token_ids_1) + 1` ones when present, so
its length is one CLS slot plus one SEP slot per sequence plus the
sequence lengths. -/
theorem createTokenTypeIds_spec (sepTokenId clsTokenId : Nat)
    (tokenIds0 : List Nat) (tokenIds1 : Option (List Nat)) :
    createTokenTypeIdsFromSequences sepTokenId clsTokenId tokenIds0 tokenIds1 =
      (match tokenIds1 with
       | none => 2 :: List.replicate (tokenIds0.length + 1) 0
       | some t1 => 2 :: (List.replicate (tokenIds0.length + 1) 0 ++
           List.replicate (t1.length + 1) 1)) ∧
    (createTokenTypeIdsFromSequences sepTokenId clsTokenId tokenIds0 tokenIds1).length =
      1 + (tokenIds0.length + 1) +
        (match tokenIds1 with | none => 0 | some t1 => t1.length + 1) := by
  cases tokenIds1 with
  | none =>
    simp [createTokenTypeIdsFromSequences, clsTokenTypeId, List.replicate]
    omega
  | some t1 =>
    simp [createTokenTypeIdsFromSequences, clsTokenTypeId, List.replicate]
    omega

/-! ## Claim C5: the `only_first` strategy -/

/-- C5: with strategy `only_first` and `num_tokens_to_remove > 0`,
`truncate_sequences` fails (the `assert` fires) exactly when
`len(ids) <= num_tokens_to_remove`; otherwise it removes exactly
`num_tokens_to_remove` tokens from the end of `ids`, leaves `pair_ids`
unchanged, and the overflow is the last `stride + num_tokens_to_remove`
tokens of the original `ids`. -/
theorem truncateSequences_onlyFirst_spec (ids : List Nat) (pairIds : Option (List Nat))
    (numTokensToRemove stride : Nat) (hn : 0 < numTokensToRemove) :
    (ids.length ≤ numTokensToRemove →
      truncateSequences ids pairIds numTokensToRemove .onlyFirst stride =
        .error "AssertionError") ∧
    (numTokensToRemove < ids.length →
      truncateSequences ids pairIds numTokensToRemove .onlyFirst stride =
        .ok (ids.take (ids.length - numTokensToRemove), pairIds,
             ids.drop (ids.length - (stride + numTokensToRemove)))) := by
  constructor
  · intro hle
    have hne : numTokensToRemove ≠ 0 := Nat.pos_iff_ne_zero.mp hn
    simp only [truncateSequences, if_neg hne]
    rw [if_neg (by omega)]
  · intro hlt
    have hne : numTokensToRemove ≠ 0 := Nat.pos_iff_ne_zero.mp hn
    simp only [truncateSequences, if_neg hne]
    rw [if_pos hlt]
    have harith : ids.length - min ids.length (stride + numTokensToRemove) =
        ids.length - (stride + numTokensToRemove) := by omega
    rw [harith]

/-- Witness for C5 at a concrete input: `ids = [1,2,3,4,5]`,
`num_tokens_to_remove = 2`, `stride = 1`. -/
theorem truncateSequences_onlyFirst_witness :
    (0 < 2) ∧
    (truncateSequences [1,2,3,4,5] none 2 .onlyFirst 1 =
      .ok ([1,2,3], none, [3,4,5])) := by
  refine ⟨by decide, ?_⟩
  have h := (truncateSequences_onlyFirst_spec [1,2,3,4,5] none 2 1 (by decide)).2 (by decide)
  simpa using h

/-! ## Claims C2 and C6: the `longest_first` strategy -/

/-- Iterate a step function `n` times (used to state the per-step
removal discipline of `longest_first`). -/
def stepIter {α : Type} (step : α → α) : Nat → α → α
  | 0, st => st
  | n+1, st => stepIter step n (step st)

/-- Removal step as claim C2 words it: remove one token from the end of
whichever of `ids` / `pair_ids` is currently longer, removing from
`ids` whenever the lengths are equal or `pair_ids` is absent (ties
always toward `ids`); only tokens removed from `ids` are collected, in
original order, into the overflow component.  This is the claim-side
definition, to be compared with `truncateSequences`. -/
def claimedLongestFirstStep (st : List Nat × Option (List Nat) × List Nat) :
    List Nat × Option (List Nat) × List Nat :=
  match st with
  | (ids, pairIds, overflowing) =>
    if pairIds = none ∨ pairLen pairIds ≤ ids.length then
      (ids.dropLast, pairIds, ids.getLast?.toList ++ overflowing)
    else
      (ids, pairIds.map List.dropLast, overflowing)

/-- Removal step actually performed by the source loops: the comparison
is strict or non-strict depending on which of the two loop copies was
entered (`strict` is fixed once, from the initial lengths). -/
def longestFirstStep (strict : Bool) (st : List Nat × Option (List Nat) × List Nat) :
    List Nat × Option (List Nat) × List Nat :=
  match st with
  | (ids, pairIds, overflowing) =>
    if pairIds = none ∨
        (if strict then pairLen pairIds < ids.length else pairLen pairIds ≤ ids.length) then
      (ids.dropLast, pairIds, ids.getLast?.toList ++ overflowing)
    else
      (ids, pairIds.map List.dropLast, overflowing)

/-- The inner `longest_first` loop never fails while at least one token
remains to remove, and it agrees with iterating `longestFirstStep`;
moreover each iteration removes exactly one token, giving the length
conservation `len ids2 + len pair2 + n = len ids + len pair`. -/
theorem longestFirstLoop_spec (strict : Bool) :
    ∀ (n : Nat) (ids : List Nat) (pairIds : Option (List Nat)) (overflowing : List Nat),
    n ≤ ids.length + pairLen pairIds →
    longestFirstLoop strict n ids pairIds overflowing =
      .ok (stepIter (longestFirstStep strict) n (ids, pairIds, overflowing)) ∧
    (stepIter (longestFirstStep strict) n (ids, pairIds, overflowing)).1.length +
      pairLen (stepIter (longestFirstStep strict) n (ids, pairIds, overflowing)).2.1 + n =
      ids.length + pairLen pairIds := by
  intro n
  induction n with
  | zero =>
    intro ids pairIds overflowing _
    exact ⟨rfl, by simp [stepIter]⟩
  | succ n ih =>
    intro ids pairIds overflowing htot
    by_cases hc : pairIds = none ∨
        (if strict then pairLen pairIds < ids.length else pairLen pairIds ≤ ids.length)
    · -- the step removes from `ids`; show `ids` is nonempty
      have hids : ids ≠ [] := by
        intro hnil
        subst hnil
        rcases hc with hnone | hcmp
        · subst hnone
          simp [pairLen] at htot
        · have h0 : pairLen pairIds = 0 := by
            cases strict with
            | true => simp [pairLen] at hcmp
            | false => simpa [pairLen] using hcmp
          simp [h0] at htot
      have hlast : ids.getLast? = some (ids.getLast hids) :=
        List.getLast?_eq_getLast ids hids
      have hstep : longestFirstStep strict (ids, pairIds, overflowing) =
          (ids.dropLast, pairIds, ids.getLast hids :: overflowing) := by
        simp [longestFirstStep, if_pos hc, hlast]
      have hlen : ids.dropLast.length = ids.length - 1 := List.length_dropLast ids
      have hpos : 0 < ids.length := List.length_pos.mpr hids
      have htot2 : n ≤ ids.dropLast.length + pairLen pairIds := by omega
      have ihres := ih ids.dropLast pairIds (ids.getLast hids :: overflowing) htot2
      have hunf : stepIter (longestFirstStep strict) (n+1) (ids, pairIds, overflowing) =
          stepIter (longestFirstStep strict) n
            (ids.dropLast, pairIds, ids.getLast hids :: overflowing) := by
        rw [show stepIter (longestFirstStep strict) (n+1) (ids, pairIds, overflowing) =
          stepIter (longestFirstStep strict) n
            (longestFirstStep strict (ids, pairIds, overflowing)) from rfl, hstep]
      constructor
      · have hred : longestFirstLoop strict (n+1) ids pairIds overflowing =
            longestFirstLoop strict n ids.dropLast pairIds
              (ids.getLast hids :: overflowing) := by
          simp only [longestFirstLoop, if_pos hc, hlast]
        rw [hred, ihres.1, hunf]
      · rw [hunf]
        have hres := ihres.2
        omega
    · -- the step removes from `pair_ids`; show it is present and nonempty
      have hsome : ∃ p : List Nat, pairIds = some p := by
        cases pairIds with
        | none => exact absurd (Or.inl rfl) hc
        | some p => exact ⟨p, rfl⟩
      obtain ⟨p, hp⟩ := hsome
      subst hp
      rw [not_or] at hc
      obtain ⟨-, hcmp⟩ := hc
      have hpl : 0 < p.length := by
        cases strict with
        | true =>
          simp [pairLen] at hcmp htot
          omega
        | false =>
          simp [pairLen] at hcmp
          omega
      have hc2 : ¬((some p : Option (List Nat)) = none ∨
          (if strict then pairLen (some p) < ids.length
           else pairLen (some p) ≤ ids.length)) := by
        rw [not_or]
        exact ⟨by simp, hcmp⟩
      have hstep : longestFirstStep strict (ids, some p, overflowing) =
          (ids, some p.dropLast, overflowing) := by
        simp only [longestFirstStep]
        rw [if_neg hc2]
        rfl
      have hlen : p.dropLast.length = p.length - 1 := List.length_dropLast p
      have htot2 : n ≤ ids.length + pairLen (some p.dropLast) := by
        simp [pairLen] at htot ⊢
        omega
      have ihres := ih ids (some p.dropLast) overflowing htot2
      have hunf : stepIter (longestFirstStep strict) (n+1) (ids, some p, overflowing) =
          stepIter (longestFirstStep strict) n (ids, some p.dropLast, overflowing) := by
        rw [show stepIter (longestFirstStep strict) (n+1) (ids, some p, overflowing) =
          stepIter (longestFirstStep strict) n
            (longestFirstStep strict (ids, some p, overflowing)) from rfl, hstep]
      constructor
      · have hred : longestFirstLoop strict (n+1) ids (some p) overflowing =
            longestFirstLoop strict n ids (some p.dropLast) overflowing := by
          simp only [longestFirstLoop, if_neg hc2, Option.map_some]
          rfl
        rw [hred, ihres.1, hunf]
      · rw [hunf]
        have hres := ihres.2
        simp [pairLen] at hres htot ⊢
        omega

/-- C2 counterexample: at `ids = [1,2,3]`, `pair_ids = [4,5]`,
`num_tokens_to_remove = 2`, `stride = 0`, the source enters its
strict-comparison loop; after the first removal the lengths tie and the
second removal is taken from `pair_ids`, not `ids`, so the code returns
`([1,2], [4], [3])` while the claim's step discipline (ties toward
`ids`) predicts `([1], [4,5], [2,3])`. -/
theorem truncateSequences_longestFirst_tie_counterexample :
    (truncateSequences [1,2,3] (some [4,5]) 2 .longestFirst 0).toOption =
      some ([1,2], some [4], [3]) ∧
    stepIter claimedLongestFirstStep 2 ([1,2,3], some [4,5], ([] : List Nat)) =
      ([1], some [4,5], [2,3]) ∧
    (some (([1,2] : List Nat), some ([4] : List Nat), ([3] : List Nat)) ≠
      some (([1] : List Nat), some ([4,5] : List Nat), ([2,3] : List Nat))) := by
  refine ⟨by decide, by decide, by decide⟩

/-- C2 (amended): for `0 < n ≤ len ids + len pair_ids` and `stride = 0`,
`truncate_sequences` with `longest_first` performs exactly `n` removal
steps, each removing one token from the end of whichever sequence the
fixed comparison selects, and only tokens removed from `ids` are
collected, in original order, into the overflow.  The tie-break is
chosen once from the initial lengths: when `pair_ids` is absent or
`len(ids) <= len(pair_ids)` the non-strict test is used (ties toward
`ids`); when initially `len(ids) > len(pair_ids)` the strict test is
used, so ties arising later are broken toward `pair_ids`. -/
theorem truncateSequences_longestFirst_steps (ids : List Nat)
    (pairIds : Option (List Nat)) (n : Nat)
    (hn : 0 < n) (htot : n ≤ ids.length + pairLen pairIds) :
    truncateSequences ids pairIds n .longestFirst 0 =
      .ok (stepIter
        (longestFirstStep (if pairIds = none ∨ ids.length ≤ pairLen pairIds then false else true))
        n (ids, pairIds, [])) := by
  have hne : n ≠ 0 := Nat.pos_iff_ne_zero.mp hn
  by_cases hbr : pairIds = none ∨ ids.length ≤ pairLen pairIds
  · have hloop := (longestFirstLoop_spec false n ids pairIds [] htot).1
    simp only [truncateSequences, if_neg hne, if_pos hbr, hloop, if_pos hbr]
    simp [Nat.min_zero]
  · have hloop := (longestFirstLoop_spec true n ids pairIds [] htot).1
    simp only [truncateSequences, if_neg hne, if_neg hbr, hloop]
    simp [Nat.min_zero]

/-- Witness for the amended C2 at the counterexample input. -/
theorem truncateSequences_longestFirst_steps_witness :
    (0 < 2) ∧ (2 ≤ ([1,2,3] : List Nat).length + pairLen (some [4,5])) ∧
    truncateSequences [1,2,3] (some [4,5]) 2 .longestFirst 0 =
      .ok (stepIter
        (longestFirstStep
          (if (some [4,5] : Option (List Nat)) = none ∨
              ([1,2,3] : List Nat).length ≤ pairLen (some [4,5]) then false else true))
        2 ([1,2,3], some [4,5], [])) :=
  ⟨by decide, by decide,
    truncateSequences_longestFirst_steps [1,2,3] (some [4,5]) 2 (by decide) (by decide)⟩

/-- C6: truncation conservation for `longest_first`: when
`0 < n ≤ len ids + len pair_ids`, the kept sequences satisfy
`len kept_ids + len kept_pair_ids + n = len ids + len pair_ids`
(the pair length read as 0 when absent), for every stride. -/
theorem truncateSequences_longestFirst_conservation (ids : List Nat)
    (pairIds : Option (List Nat)) (n stride : Nat)
    (hn : 0 < n) (htot : n ≤ ids.length + pairLen pairIds) :
    ∃ kept keptPair overflowing,
      truncateSequences ids pairIds n .longestFirst stride =
        .ok (kept, keptPair, overflowing) ∧
      kept.length + pairLen keptPair + n = ids.length + pairLen pairIds := by
  have hne : n ≠ 0 := Nat.pos_iff_ne_zero.mp hn
  by_cases hbr : pairIds = none ∨ ids.length ≤ pairLen pairIds
  · obtain ⟨hloop, hcons⟩ := longestFirstLoop_spec false n ids pairIds [] htot
    rcases hres : stepIter (longestFirstStep false) n (ids, pairIds, []) with ⟨kept, keptPair, ov⟩
    rw [hres] at hloop hcons
    simp only at hcons
    by_cases hw : 0 < min kept.length stride
    · refine ⟨kept, keptPair, kept.drop (kept.length - min kept.length stride) ++ ov, ?_, hcons⟩
      simp only [truncateSequences, if_neg hne, if_pos hbr, hloop, if_pos hw]
    · refine ⟨kept, keptPair, ov, ?_, hcons⟩
      simp only [truncateSequences, if_neg hne, if_pos hbr, hloop, if_neg hw]
  · obtain ⟨hloop, hcons⟩ := longestFirstLoop_spec true n ids pairIds [] htot
    rcases hres : stepIter (longestFirstStep true) n (ids, pairIds, []) with ⟨kept, keptPair, ov⟩
    rw [hres] at hloop hcons
    simp only at hcons
    by_cases hw : 0 < min kept.length stride
    · refine ⟨kept, keptPair, kept.drop (kept.length - min kept.length stride) ++ ov, ?_, hcons⟩
      simp only [truncateSequences, if_neg hne, if_neg hbr, hloop, if_pos hw]
    · refine ⟨kept, keptPair, ov, ?_, hcons⟩
      simp only [truncateSequences, if_neg hne, if_neg hbr, hloop, if_neg hw]

/-- Witness for C6 at a concrete input (`stride = 3` exercises the
look-back window, which does not disturb the kept lengths). -/
theorem truncateSequences_longestFirst_conservation_witness :
    (0 < 3) ∧ (3 ≤ ([1,2,3,4] : List Nat).length + pairLen (some [5,6,7])) ∧
    ∃ kept keptPair overflowing,
      truncateSequences [1,2,3,4] (some [5,6,7]) 3 .longestFirst 3 =
        .ok (kept, keptPair, overflowing) ∧
      kept.length + pairLen keptPair + 3 =
        ([1,2,3,4] : List Nat).length + pairLen (some [5,6,7]) :=
  ⟨by decide, by decide,
    truncateSequences_longestFirst_conservation [1,2,3,4] (some [5,6,7]) 3 3
      (by decide) (by decide)⟩

/-! ## Sliding-window loop of `batch_encode` (source lines 449-545)

The `while True` loop of the sliding-window path repeatedly takes
`second_ids[:max_len_for_pair]` (all of `second_ids` once it fits),
emits a window, and advances `second_ids` by
`max_len_for_pair - stride`.  `slidingWindows m s fuel l` returns the
list of emitted pair slices; `fuel` bounds the number of iterations and
`none` models non-termination within the given fuel. -/

/-- `max_len_for_pair = max_seq_len - len(first_ids) -
num_special_tokens_to_add(pair=True)` (source lines 451-453).
`numSpecial` is the externally supplied special-token overhead. -/
def maxLenForPair (maxSeqLen firstLen numSpecial : Nat) : Nat :=
  maxSeqLen - firstLen - numSpecial

/-- Pair slices emitted by the sliding-window loop. -/
def slidingWindows (m s : Nat) : Nat → List Nat → Option (List (List Nat))
  | 0, _ => none
  | fuel+1, l =>
    if l.length ≤ m then some [l]
    else
      match slidingWindows m s fuel (l.drop (m - s)) with
      | none => none
      | some rest => some (l.take m :: rest)

/-- Start position (in the original `pair_ids`) of window `i`. -/
def windowStart (m s i : Nat) : Nat := i * (m - s)

/-- Unfolding of `slidingWindows` at positive fuel. -/
theorem slidingWindows_succ (m s fuel : Nat) (l : List Nat) :
    slidingWindows m s (fuel+1) l =
      if l.length ≤ m then some [l]
      else
        match slidingWindows m s fuel (l.drop (m - s)) with
        | none => none
        | some rest => some (l.take m :: rest) := rfl

/-- The loop emits at least one window. -/
theorem slidingWindows_ne_nil (m s : Nat) :
    ∀ (fuel : Nat) (l : List Nat) (ws : List (List Nat)),
    slidingWindows m s fuel l = some ws → ws ≠ [] := by
  intro fuel
  cases fuel with
  | zero => intro l ws h; exact absurd h (by simp [slidingWindows])
  | succ fuel =>
    intro l ws h
    rw [slidingWindows_succ] at h
    split at h
    · cases h; simp
    · cases hrec : slidingWindows m s fuel (l.drop (m - s)) with
      | none => rw [hrec] at h; cases h
      | some rest => rw [hrec] at h; cases h; simp

/-- With `0 < s < m` the loop terminates within `len + 1` iterations. -/
theorem slidingWindows_total (m s : Nat) (hs : 0 < s) (hm : s < m) :
    ∀ (fuel : Nat) (l : List Nat), l.length < fuel →
    ∃ ws, slidingWindows m s fuel l = some ws := by
  intro fuel
  induction fuel with
  | zero => intro l h; omega
  | succ fuel ih =>
    intro l hlen
    by_cases hle : l.length ≤ m
    · exact ⟨[l], by rw [slidingWindows_succ, if_pos hle]⟩
    · have hdrop : (l.drop (m - s)).length < fuel := by
        rw [List.length_drop]
        omega
      obtain ⟨rest, hrest⟩ := ih (l.drop (m - s)) hdrop
      exact ⟨l.take m :: rest, by rw [slidingWindows_succ, if_neg hle, hrest]⟩

/-- Window `i` is the slice of the original list starting at
`i * (m - s)` and at most `m` long. -/
theorem slidingWindows_get (m s : Nat) :
    ∀ (fuel : Nat) (l : List Nat) (ws : List (List Nat)),
    slidingWindows m s fuel l = some ws →
    ∀ (i : Nat) (hi : i < ws.length),
      ws.get ⟨i, hi⟩ = (l.drop (i * (m - s))).take m := by
  intro fuel
  induction fuel with
  | zero => intro l ws h; exact absurd h (by simp [slidingWindows])
  | succ fuel ih =>
    intro l ws h
    rw [slidingWindows_succ] at h
    split at h
    next hle =>
      cases h
      intro i hi
      simp at hi
      subst hi
      simp [List.take_of_length_le hle]
    next hle =>
      cases hrec : slidingWindows m s fuel (l.drop (m - s)) with
      | none => rw [hrec] at h; cases h
      | some rest =>
        rw [hrec] at h
        cases h
        intro i hi
        cases i with
        | zero => simp
        | succ i =>
          have hi2 : i < rest.length := by
            simpa using Nat.lt_of_succ_lt_succ hi
          have := ih (l.drop (m - s)) rest hrec i hi2
          simp only [List.get_cons_succ]
          rw [this, List.drop_drop]
          congr 2
          rw [Nat.succ_mul]
          omega

/-- Every non-final window lies strictly inside the original list
(hence has length exactly `m`). -/
theorem slidingWindows_nonfinal_bound (m s : Nat) :
    ∀ (fuel : Nat) (l : List Nat) (ws : List (List Nat)),
    slidingWindows m s fuel l = some ws →
    ∀ i, i + 1 < ws.length → i * (m - s) + m < l.length := by
  intro fuel
  induction fuel with
  | zero => intro l ws h; exact absurd h (by simp [slidingWindows])
  | succ fuel ih =>
    intro l ws h
    rw [slidingWindows_succ] at h
    split at h
    next hle =>
      cases h
      intro i hi
      simp at hi
    next hle =>
      cases hrec : slidingWindows m s fuel (l.drop (m - s)) with
      | none => rw [hrec] at h; cases h
      | some rest =>
        rw [hrec] at h
        cases h
        intro i hi
        cases i with
        | zero => simpa using Nat.lt_of_not_le hle
        | succ i =>
          have hi2 : i + 1 < rest.length := by simpa using Nat.lt_of_succ_lt_succ hi
          have hb := ih (l.drop (m - s)) rest hrec i hi2
          rw [List.length_drop] at hb
          have hms : m - s ≤ l.length := by omega
          rw [Nat.succ_mul]
          omega

/-- Every position of the original list is covered by some window. -/
theorem slidingWindows_coverage (m s : Nat) (hs : 0 < s) (hm : s < m) :
    ∀ (fuel : Nat) (l : List Nat) (ws : List (List Nat)),
    slidingWindows m s fuel l = some ws →
    ∀ j, j < l.length →
      ∃ i, i < ws.length ∧ i * (m - s) ≤ j ∧ j < i * (m - s) + m := by
  intro fuel
  induction fuel with
  | zero => intro l ws h; exact absurd h (by simp [slidingWindows])
  | succ fuel ih =>
    intro l ws h
    rw [slidingWindows_succ] at h
    split at h
    next hle =>
      cases h
      intro j hj
      exact ⟨0, by simp, by simp, by simp; omega⟩
    next hle =>
      cases hrec : slidingWindows m s fuel (l.drop (m - s)) with
      | none => rw [hrec] at h; cases h
      | some rest =>
        rw [hrec] at h
        cases h
        intro j hj
        by_cases hjm : j < m
        · exact ⟨0, by simp, by simp, by simpa using hjm⟩
        · have hd : m - s < m := by omega
          have hj2 : j - (m - s) < (l.drop (m - s)).length := by
            rw [List.length_drop]
            omega
          obtain ⟨i, hi, h1, h2⟩ := ih (l.drop (m - s)) rest hrec (j - (m - s)) hj2
          refine ⟨i + 1, by simpa using Nat.succ_lt_succ hi, ?_, ?_⟩
          · rw [Nat.succ_mul]
            omega
          · rw [Nat.succ_mul]
            omega

/-- The final window is the whole remaining slice of the list. -/
theorem slidingWindows_last (m s : Nat) :
    ∀ (fuel : Nat) (l : List Nat) (ws : List (List Nat)),
    slidingWindows m s fuel l = some ws →
    ws.getLast? = some (l.drop ((ws.length - 1) * (m - s))) := by
  intro fuel
  induction fuel with
  | zero => intro l ws h; exact absurd h (by simp [slidingWindows])
  | succ fuel ih =>
    intro l ws h
    rw [slidingWindows_succ] at h
    split at h
    next hle =>
      cases h
      simp
    next hle =>
      cases hrec : slidingWindows m s fuel (l.drop (m - s)) with
      | none => rw [hrec] at h; cases h
      | some rest =>
        rw [hrec] at h
        cases h
        have hne : rest ≠ [] := slidingWindows_ne_nil m s fuel _ rest hrec
        obtain ⟨r, t, hrt⟩ := List.exists_cons_of_ne_nil hne
        subst hrt
        rw [List.getLast?_cons_cons]
        have hlast := ih (l.drop (m - s)) (r :: t) hrec
        rw [hlast, List.drop_drop]
        have harith : (m - s) + ((r :: t).length - 1) * (m - s) =
            ((List.take m l :: r :: t).length - 1) * (m - s) := by
          simp only [List.length_cons, Nat.add_sub_cancel]
          rw [Nat.succ_mul]
          omega
        rw [harith]

/-- With `0 < s < m` the emitted window count is
`1 + ceil((len - m) / (m - s))` once the list does not fit (and 1 when
it does). -/
theorem slidingWindows_count (m s : Nat) (hs : 0 < s) (hm : s < m) :
    ∀ (fuel : Nat) (l : List Nat) (ws : List (List Nat)),
    l.length < fuel →
    slidingWindows m s fuel l = some ws →
    ws.length = if l.length ≤ m then 1
      else 1 + ((l.length - m) + (m - s) - 1) / (m - s) := by
  intro fuel
  induction fuel with
  | zero => intro l ws h; omega
  | succ fuel ih =>
    intro l ws hlen h
    rw [slidingWindows_succ] at h
    split at h
    next hle =>
      cases h
      rw [if_pos hle]
      rfl
    next hle =>
      cases hrec : slidingWindows m s fuel (l.drop (m - s)) with
      | none => rw [hrec] at h; cases h
      | some rest =>
        rw [hrec] at h
        cases h
        have hd : 0 < m - s := by omega
        have hdrop : (l.drop (m - s)).length < fuel := by
          rw [List.length_drop]
          omega
        have hrl := ih (l.drop (m - s)) rest hdrop hrec
        rw [List.length_drop] at hrl
        rw [if_neg hle]
        simp only [List.length_cons]
        split at hrl
        next hfit =>
          -- last iteration: `1 ≤ len - m ≤ m - s`
          rw [hrl]
          have h1 : (l.length - m) + (m - s) - 1 = (l.length - m - 1) + (m - s) := by
            omega
          rw [h1, Nat.add_div_right _ hd, Nat.div_eq_of_lt (by omega)]
        next hfit =>
          rw [hrl]
          have h1 : (l.length - m) + (m - s) - 1 = (l.length - m - 1) + (m - s) := by
            omega
          have h2 : (l.length - (m - s) - m) + (m - s) - 1 = l.length - m - 1 := by
            omega
          rw [h1, h2, Nat.add_div_right _ hd]
          omega

/-- C9: the sliding-window while-loop, entered with
`len(second_ids) > max_len_for_pair = m`, terminates for
`0 < stride < m`, emitting `1 + ceil((len - m) / (m - stride))`
windows; when `stride = m`, the advance `second_ids[m - stride:]`
leaves `second_ids` unchanged and the loop never terminates (no fuel
suffices). -/
theorem slidingWindows_termination_count (m s : Nat) (l : List Nat) (hl : m < l.length) :
    (0 < s → s < m →
      ∃ ws, slidingWindows m s (l.length + 1) l = some ws ∧
        ws.length = 1 + ((l.length - m) + (m - s) - 1) / (m - s)) ∧
    l.drop (m - m) = l ∧
    (∀ fuel, slidingWindows m m fuel l = none) := by
  refine ⟨?_, by simp, ?_⟩
  · intro hs hm
    obtain ⟨ws, hws⟩ := slidingWindows_total m s hs hm (l.length + 1) l (by omega)
    refine ⟨ws, hws, ?_⟩
    have := slidingWindows_count m s hs hm (l.length + 1) l ws (by omega) hws
    rwa [if_neg (by omega)] at this
  · intro fuel
    induction fuel with
    | zero => rfl
    | succ fuel ih =>
      rw [slidingWindows_succ, if_neg (by omega)]
      simp only [Nat.sub_self, List.drop_zero]
      rw [ih]

/-- Witness for C9 at `m = 2`, `s = 1`, `l = [1,2,3]`. -/
theorem slidingWindows_termination_count_witness :
    (2 < ([1,2,3] : List Nat).length) ∧
    ((0 < 1 → 1 < 2 →
      ∃ ws, slidingWindows 2 1 4 [1,2,3] = some ws ∧
        ws.length = 1 + ((([1,2,3] : List Nat).length - 2) + (2 - 1) - 1) / (2 - 1)) ∧
    ([1,2,3] : List Nat).drop (2 - 2) = [1,2,3] ∧
    (∀ fuel, slidingWindows 2 2 fuel [1,2,3] = none)) :=
  ⟨by decide, slidingWindows_termination_count 2 1 [1,2,3] (by decide)⟩

/-! ## Claim C1: sliding-window coverage -/

/-- Modelled from the spec: `build_inputs_with_special_tokens` is
supplied by the external tokenizer base class (not part of the analyzed
source file); the spec fixes the layout `[cls] A [sep]` for a single
sequence and `[cls] A [sep] B [sep]` for a pair. -/
def buildInputsWithSpecialTokens (clsId sepId : Nat)
    (tokenIds0 : List Nat) (tokenIds1 : Option (List Nat)) : List Nat :=
  match tokenIds1 with
  | none => [clsId] ++ tokenIds0 ++ [sepId]
  | some t1 => [clsId] ++ tokenIds0 ++ [sepId] ++ t1 ++ [sepId]

/-- C1: with stride `0 < s < m` where
`m = max_seq_len - len(first_ids) - special_token_overhead(pair=True)`,
the sliding-window loop terminates and: every emitted window's encoded
input contains the full `first_ids`; each window is the slice of
`pair_ids` starting at `windowStart m s i = i * (m - s)`; the
pair-token ranges of any two consecutive windows overlap by exactly `s`
tokens (stated as: the end of window `i` is `s` past the start of
window `i + 1`); every position of `pair_ids` lies in some window's
range (a contiguous, gap-free cover); and the final window takes all
remaining pair tokens. -/
theorem slidingWindows_coverage_spec (maxSeqLen numSpecial s clsId sepId : Nat)
    (firstIds pairIds : List Nat) (m : Nat)
    (hm : m = maxLenForPair maxSeqLen firstIds.length numSpecial)
    (hs : 0 < s) (hsm : s < m) :
    ∃ ws, slidingWindows m s (pairIds.length + 1) pairIds = some ws ∧
      (∀ w ∈ ws, firstIds <:+:
        buildInputsWithSpecialTokens clsId sepId firstIds (some w)) ∧
      (∀ (i : Nat) (hi : i < ws.length),
        ws.get ⟨i, hi⟩ = (pairIds.drop (windowStart m s i)).take m) ∧
      (∀ (i : Nat) (hi : i + 1 < ws.length),
        windowStart m s i + (ws.get ⟨i, Nat.lt_of_succ_lt hi⟩).length =
          windowStart m s (i + 1) + s) ∧
      (∀ j, j < pairIds.length → ∃ i, ∃ hi : i < ws.length,
        windowStart m s i ≤ j ∧
          j < windowStart m s i + (ws.get ⟨i, hi⟩).length) ∧
      ws.getLast? = some (pairIds.drop (windowStart m s (ws.length - 1))) := by
  obtain ⟨ws, hws⟩ :=
    slidingWindows_total m s hs hsm (pairIds.length + 1) pairIds (by omega)
  have hget := slidingWindows_get m s (pairIds.length + 1) pairIds ws hws
  have hlen : ∀ (i : Nat) (hi : i < ws.length),
      (ws.get ⟨i, hi⟩).length = min m (pairIds.length - i * (m - s)) := by
    intro i hi
    rw [hget i hi, List.length_take, List.length_drop]
  refine ⟨ws, hws, ?_, ?_, ?_, ?_, ?_⟩
  · intro w _
    exact ⟨[clsId], [sepId] ++ w ++ [sepId], by
      simp [buildInputsWithSpecialTokens]⟩
  · intro i hi
    simpa [windowStart] using hget i hi
  · intro i hi
    have hb := slidingWindows_nonfinal_bound m s (pairIds.length + 1) pairIds ws hws i hi
    have hl := hlen i (Nat.lt_of_succ_lt hi)
    rw [hl]
    simp only [windowStart]
    rw [Nat.succ_mul]
    have hmin : min m (pairIds.length - i * (m - s)) = m := by omega
    rw [hmin]
    omega
  · intro j hj
    obtain ⟨i, hi, h1, h2⟩ :=
      slidingWindows_coverage m s hs hsm (pairIds.length + 1) pairIds ws hws j hj
    refine ⟨i, hi, ?_, ?_⟩
    · simpa [windowStart] using h1
    · rw [hlen i hi]
      simp only [windowStart]
      omega
  · have := slidingWindows_last m s (pairIds.length + 1) pairIds ws hws
    simpa [windowStart] using this

/-- Witness for C1: `max_seq_len = 4`, `first_ids = [9]`, overhead 1,
stride 1, so `m = 2`, over `pair_ids = [5,6,7]`. -/
theorem slidingWindows_coverage_spec_witness :
    (2 = maxLenForPair 4 ([9] : List Nat).length 1) ∧ (0 < 1) ∧ (1 < 2) ∧
    (∃ ws, slidingWindows 2 1 4 [5,6,7] = some ws ∧
      (∀ w ∈ ws, ([9] : List Nat) <:+:
        buildInputsWithSpecialTokens 0 8 [9] (some w)) ∧
      (∀ (i : Nat) (hi : i < ws.length),
        ws.get ⟨i, hi⟩ = (([5,6,7] : List Nat).drop (windowStart 2 1 i)).take 2) ∧
      (∀ (i : Nat) (hi : i + 1 < ws.length),
        windowStart 2 1 i + (ws.get ⟨i, Nat.lt_of_succ_lt hi⟩).length =
          windowStart 2 1 (i + 1) + 1) ∧
      (∀ j, j < ([5,6,7] : List Nat).length → ∃ i, ∃ hi : i < ws.length,
        windowStart 2 1 i ≤ j ∧
          j < windowStart 2 1 i + (ws.get ⟨i, hi⟩).length) ∧
      ws.getLast? = some (([5,6,7] : List Nat).drop (windowStart 2 1 (ws.length - 1)))) :=
  ⟨by decide, by decide, by decide,
    slidingWindows_coverage_spec 4 1 1 0 8 [9] [5,6,7] 2 (by decide) (by decide) (by decide)⟩

/-! ## Encoded examples of the sliding-window path (source lines 458-545) -/

/-- `build_offset_mapping_with_special_tokens` (source lines 200-221). -/
def buildOffsetMappingWithSpecialTokens (offsetMapping0 : List (Nat × Nat))
    (offsetMapping1 : Option (List (Nat × Nat))) : List (Nat × Nat) :=
  match offsetMapping1 with
  | none => [(0, 0)] ++ offsetMapping0 ++ [(0, 0)]
  | some m1 => [(0, 0)] ++ offsetMapping0 ++ [(0, 0)] ++ m1 ++ [(0, 0)]

/-- `get_special_tokens_mask` (source lines 230-255), in the
`already_has_special_tokens = False` form used by `batch_encode`. -/
def getSpecialTokensMask (tokenIds0 : List Nat) (tokenIds1 : Option (List Nat)) :
    List Nat :=
  match tokenIds1 with
  | some t1 =>
    [1] ++ List.replicate tokenIds0.length 0 ++ [1] ++
      List.replicate t1.length 0 ++ [1]
  | none => [1] ++ List.replicate tokenIds0.length 0 ++ [1]

/-- `self.padding_side` of the external tokenizer base. -/
inductive PaddingSide
  | left
  | right
deriving DecidableEq

/-- External ids and the flag arguments of `batch_encode` that the
sliding-window path consults. -/
structure EncodeConfig where
  clsId : Nat
  sepId : Nat
  padTokenId : Nat
  padTokenTypeId : Nat
  paddingSide : PaddingSide
  returnPositionIds : Bool
  returnTokenTypeIds : Bool
  returnAttentionMask : Bool
  returnLength : Bool
  returnSpecialTokensMask : Bool
  padToMaxSeqLen : Bool
deriving DecidableEq

/-- One output record of `batch_encode`'s sliding-window path.  Fields
that are set only under a flag are `Option`s; `input_ids` and
`offset_mapping` are always set on this path (source lines 475, 491). -/
structure EncodedExample where
  input_ids : List Nat
  token_type_ids : Option (List Nat)
  special_tokens_mask : Option (List Nat)
  seq_len : Option Nat
  offset_mapping : List (Nat × Nat)
  attention_mask : Option (List Nat)
  position_ids : Option (List Nat)
  overflow_to_sample : Nat
deriving DecidableEq

/-- Field present only when the corresponding flag is set. -/
def optList {α : Type} (b : Bool) (x : α) : Option α :=
  if b then some x else none

/-- One iteration body of the sliding-window loop (source lines
459-539): assemble the window record from `first_ids`, its offset
mapping, the current pair slice and its offset slice, check the length
assertion (`none` models the failed `assert` of line 484), pad on the
configured side when requested, and stamp `overflow_to_sample`.
`seq_len` is the pre-padding length (set at line 481, before padding). -/
def encodeWindow (cfg : EncodeConfig) (maxSeqLen : Nat) (ids : List Nat)
    (mapping : List (Nat × Nat)) (pairIds : List Nat) (pairMapping : List (Nat × Nat))
    (exampleId : Nat) : Option EncodedExample :=
  let offsetMapping := buildOffsetMappingWithSpecialTokens mapping (some pairMapping)
  let sequence := buildInputsWithSpecialTokens cfg.clsId cfg.sepId ids (some pairIds)
  let tokenTypeIds := createTokenTypeIdsFromSequences cfg.sepId cfg.clsId ids (some pairIds)
  let specialMask := getSpecialTokensMask ids (some pairIds)
  if sequence.length ≤ maxSeqLen then
    if cfg.padToMaxSeqLen = true ∧ maxSeqLen ≠ 0 ∧ sequence.length < maxSeqLen then
      let difference := maxSeqLen - sequence.length
      match cfg.paddingSide with
      | .right =>
        some { input_ids := sequence ++ List.replicate difference cfg.padTokenId,
               token_type_ids := optList cfg.returnTokenTypeIds
                 (tokenTypeIds ++ List.replicate difference cfg.padTokenTypeId),
               special_tokens_mask := optList cfg.returnSpecialTokensMask
                 (specialMask ++ List.replicate difference 1),
               seq_len := optList cfg.returnLength sequence.length,
               offset_mapping := offsetMapping ++ List.replicate difference (0, 0),
               attention_mask := optList cfg.returnAttentionMask
                 (List.replicate sequence.length 1 ++ List.replicate difference 0),
               position_ids := optList cfg.returnPositionIds
                 (List.range (sequence ++ List.replicate difference cfg.padTokenId).length),
               overflow_to_sample := exampleId }
      | .left =>
        some { input_ids := List.replicate difference cfg.padTokenId ++ sequence,
               token_type_ids := optList cfg.returnTokenTypeIds
                 (List.replicate difference cfg.padTokenTypeId ++ tokenTypeIds),
               special_tokens_mask := optList cfg.returnSpecialTokensMask
                 (List.replicate difference 1 ++ specialMask),
               seq_len := optList cfg.returnLength sequence.length,
               offset_mapping := List.replicate difference (0, 0) ++ offsetMapping,
               attention_mask := optList cfg.returnAttentionMask
                 (List.replicate difference 0 ++ List.replicate sequence.length 1),
               position_ids := optList cfg.returnPositionIds
                 (List.range (List.replicate difference cfg.padTokenId ++ sequence).length),
               overflow_to_sample := exampleId }
    else
      some { input_ids := sequence,
             token_type_ids := optList cfg.returnTokenTypeIds tokenTypeIds,
             special_tokens_mask := optList cfg.returnSpecialTokensMask specialMask,
             seq_len := optList cfg.returnLength sequence.length,
             offset_mapping := offsetMapping,
             attention_mask := optList cfg.returnAttentionMask
               (List.replicate sequence.length 1),
             position_ids := optList cfg.returnPositionIds (List.range sequence.length),
             overflow_to_sample := exampleId }
  else none

/-- The sliding-window path of `batch_encode` for one batch item
(source lines 449-545): emit a window for the current pair slice, stop
once the remainder fits, otherwise advance both `second_ids` and its
offset mapping by `max_len_for_pair - stride`.  `fuel` bounds the loop
as in `slidingWindows`. -/
def slidingEncode (cfg : EncodeConfig) (maxSeqLen stride numSpecial : Nat)
    (firstIds : List Nat) (mapping : List (Nat × Nat)) (exampleId : Nat) :
    Nat → List Nat → List (Nat × Nat) → Option (List EncodedExample)
  | 0, _, _ => none
  | fuel+1, secondIds, pairMapping =>
    let m := maxLenForPair maxSeqLen firstIds.length numSpecial
    let pairIds := if secondIds.length ≤ m then secondIds else secondIds.take m
    let pm := if secondIds.length ≤ m then pairMapping else pairMapping.take m
    match encodeWindow cfg maxSeqLen firstIds mapping pairIds pm exampleId with
    | none => none
    | some ex =>
      if secondIds.length ≤ m then some [ex]
      else
        match slidingEncode cfg maxSeqLen stride numSpecial firstIds mapping exampleId
            fuel (secondIds.drop (m - stride)) (pairMapping.drop (m - stride)) with
        | none => none
        | some rest => some (ex :: rest)

/-- All sequence-valued fields present in an encoded example have the
length of its `input_ids`. -/
def EncodedExample.uniformLength (ex : EncodedExample) : Prop :=
  ex.offset_mapping.length = ex.input_ids.length ∧
  (∀ t, ex.token_type_ids = some t → t.length = ex.input_ids.length) ∧
  (∀ t, ex.special_tokens_mask = some t → t.length = ex.input_ids.length) ∧
  (∀ t, ex.attention_mask = some t → t.length = ex.input_ids.length) ∧
  (∀ t, ex.position_ids = some t → t.length = ex.input_ids.length)

theorem optList_eq_some {α : Type} {b : Bool} {x t : α} (h : optList b x = some t) :
    t = x := by
  cases b with
  | false => simp [optList] at h
  | true =>
    simp [optList] at h
    exact h.symm

theorem length_buildInputs_pair (clsId sepId : Nat) (a b : List Nat) :
    (buildInputsWithSpecialTokens clsId sepId a (some b)).length =
      a.length + b.length + 3 := by
  simp [buildInputsWithSpecialTokens]
  omega

theorem length_tokenTypeIds_pair (sepTokenId clsTokenId : Nat) (a b : List Nat) :
    (createTokenTypeIdsFromSequences sepTokenId clsTokenId a (some b)).length =
      a.length + b.length + 3 := by
  simp [createTokenTypeIdsFromSequences]
  omega

theorem length_specialMask_pair (a b : List Nat) :
    (getSpecialTokensMask a (some b)).length = a.length + b.length + 3 := by
  simp [getSpecialTokensMask]
  omega

theorem length_offsetMapping_pair (a b : List (Nat × Nat)) :
    (buildOffsetMappingWithSpecialTokens a (some b)).length =
      a.length + b.length + 3 := by
  simp [buildOffsetMappingWithSpecialTokens]
  omega

/-- Uniform field length for one assembled window. -/
theorem encodeWindow_uniformLength (cfg : EncodeConfig) (maxSeqLen : Nat)
    (ids : List Nat) (mapping : List (Nat × Nat)) (pairIds : List Nat)
    (pairMapping : List (Nat × Nat)) (exampleId : Nat) (ex : EncodedExample)
    (hmap : mapping.length = ids.length) (hpm : pairMapping.length = pairIds.length)
    (henc : encodeWindow cfg maxSeqLen ids mapping pairIds pairMapping exampleId =
      some ex) : ex.uniformLength := by
  simp only [encodeWindow] at henc
  split at henc
  · split at henc
    · split at henc
      all_goals (
        rw [Option.some_inj] at henc
        subst henc
        refine ⟨?_, ?_, ?_, ?_, ?_⟩ <;>
          (try (intro t ht; rw [optList_eq_some ht])) <;>
          simp [length_offsetMapping_pair, length_buildInputs_pair,
            length_tokenTypeIds_pair, length_specialMask_pair, hmap, hpm])
    · rw [Option.some_inj] at henc
      subst henc
      refine ⟨?_, ?_, ?_, ?_, ?_⟩ <;>
        (try (intro t ht; rw [optList_eq_some ht])) <;>
        simp [length_offsetMapping_pair, length_buildInputs_pair,
          length_tokenTypeIds_pair, length_specialMask_pair, hmap, hpm]
  · exact absurd henc (by simp)

/-- C4: every record emitted by the sliding-window path of
`batch_encode` (after special tokens are added and any requested
padding is applied) has all its present sequence-valued fields
(`input_ids`, `token_type_ids`, `attention_mask`,
`special_tokens_mask`, `position_ids`, `offset_mapping`) of equal
length; in particular `len(offset_mapping) = len(input_ids)`.  The
hypotheses record that the externally computed offset mappings have one
entry per token, which holds for string inputs. -/
theorem slidingEncode_uniformLength (cfg : EncodeConfig)
    (maxSeqLen stride numSpecial : Nat) (firstIds : List Nat)
    (mapping : List (Nat × Nat)) (exampleId : Nat) :
    ∀ (fuel : Nat) (secondIds : List Nat) (pairMapping : List (Nat × Nat))
      (exs : List EncodedExample),
    mapping.length = firstIds.length →
    pairMapping.length = secondIds.length →
    slidingEncode cfg maxSeqLen stride numSpecial firstIds mapping exampleId
      fuel secondIds pairMapping = some exs →
    ∀ ex ∈ exs, ex.uniformLength := by
  intro fuel
  induction fuel with
  | zero =>
    intro secondIds pairMapping exs _ _ h
    exact absurd h (by simp [slidingEncode])
  | succ fuel ih =>
    intro secondIds pairMapping exs hmap hpm h
    rw [slidingEncode] at h
    by_cases hfit : secondIds.length ≤ maxLenForPair maxSeqLen firstIds.length numSpecial
    · rw [if_pos hfit, if_pos hfit] at h
      cases hw : encodeWindow cfg maxSeqLen firstIds mapping secondIds pairMapping
          exampleId with
      | none => rw [hw] at h; cases h
      | some ex0 =>
        rw [hw] at h
        dsimp only at h
        rw [if_pos hfit] at h
        rw [Option.some_inj] at h
        subst h
        intro ex hex
        rw [List.mem_singleton] at hex
        subst hex
        exact encodeWindow_uniformLength cfg maxSeqLen firstIds mapping secondIds
          pairMapping exampleId ex hmap hpm hw
    · rw [if_neg hfit, if_neg hfit] at h
      cases hw : encodeWindow cfg maxSeqLen firstIds mapping
          (secondIds.take (maxLenForPair maxSeqLen firstIds.length numSpecial))
          (pairMapping.take (maxLenForPair maxSeqLen firstIds.length numSpecial))
          exampleId with
      | none => rw [hw] at h; cases h
      | some ex0 =>
        rw [hw] at h
        dsimp only at h
        rw [if_neg hfit] at h
        cases hrec : slidingEncode cfg maxSeqLen stride numSpecial firstIds mapping
            exampleId fuel
            (secondIds.drop (maxLenForPair maxSeqLen firstIds.length numSpecial - stride))
            (pairMapping.drop (maxLenForPair maxSeqLen firstIds.length numSpecial - stride))
            with
        | none => rw [hrec] at h; cases h
        | some rest =>
          rw [hrec] at h
          rw [Option.some_inj] at h
          subst h
          intro ex hex
          rw [List.mem_cons] at hex
          cases hex with
          | inl hex =>
            subst hex
            refine encodeWindow_uniformLength cfg maxSeqLen firstIds mapping _ _
              exampleId ex hmap ?_ hw
            rw [List.length_take, List.length_take, hpm]
          | inr hex =>
            refine ih _ _ rest hmap ?_ hrec ex hex
            rw [List.length_drop, List.length_drop, hpm]

/-- Concrete configuration for the C4 witness: every flag on, padding
on the right. -/
def witnessConfig : EncodeConfig :=
  { clsId := 101, sepId := 102, padTokenId := 0, padTokenTypeId := 0,
    paddingSide := .right, returnPositionIds := true,
    returnTokenTypeIds := true, returnAttentionMask := true,
    returnLength := true, returnSpecialTokensMask := true,
    padToMaxSeqLen := true }

/-- Concrete record produced by `slidingEncode` at the C4 witness
input. -/
def witnessExample : EncodedExample :=
  { input_ids := [101, 5, 102, 7, 102, 0, 0, 0],
    token_type_ids := some [2, 0, 0, 1, 1, 0, 0, 0],
    special_tokens_mask := some [1, 0, 1, 0, 1, 1, 1, 1],
    seq_len := some 5,
    offset_mapping := [(0, 0), (0, 1), (0, 0), (2, 3), (0, 0), (0, 0), (0, 0), (0, 0)],
    attention_mask := some [1, 1, 1, 1, 1, 0, 0, 0],
    position_ids := some [0, 1, 2, 3, 4, 5, 6, 7],
    overflow_to_sample := 3 }

/-- Witness for C4 at a one-window concrete input. -/
theorem slidingEncode_uniformLength_witness :
    ([((0 : Nat), (1 : Nat))].length = ([5] : List Nat).length) ∧
    ([((2 : Nat), (3 : Nat))].length = ([7] : List Nat).length) ∧
    (slidingEncode witnessConfig 8 1 3 [5] [(0, 1)] 3 2 [7] [(2, 3)] =
      some [witnessExample]) ∧
    witnessExample.uniformLength := by
  have h : slidingEncode witnessConfig 8 1 3 [5] [(0, 1)] 3 2 [7] [(2, 3)] =
      some [witnessExample] := by decide
  exact ⟨rfl, rfl, h,
    slidingEncode_uniformLength witnessConfig 8 1 3 [5] [(0, 1)] 3 2 [7] [(2, 3)]
      [witnessExample] rfl rfl h witnessExample (by simp)⟩

/-! ## Claim C3: the worked sliding-window example -/

/-- Flag configuration matching the `batch_encode` defaults
(`return_token_type_ids=True`, everything else off, no padding,
padding side right). -/
def defaultConfig : EncodeConfig :=
  { clsId := 101, sepId := 102, padTokenId := 0, padTokenTypeId := 0,
    paddingSide := .right, returnPositionIds := false,
    returnTokenTypeIds := true, returnAttentionMask := false,
    returnLength := false, returnSpecialTokensMask := false,
    padToMaxSeqLen := false }

/-- C3 counterexample: for `len(first_ids) = 5`, `len(pair_ids) = 20`,
`max_seq_len = 12`, `stride = 2` and special overhead 4 (so
`max_len_for_pair = 3`), the loop advances by `3 - 2 = 1` pair token
per window and emits 18 windows, not the 8 the claim states. -/
theorem slidingEncode_example_counterexample :
    (slidingEncode defaultConfig 12 2 4 (List.range 5) (List.replicate 5 (0, 0)) 0
        21 (List.range 20) (List.replicate 20 (0, 0))).map List.length =
      some 18 ∧ (18 : Nat) ≠ 8 := by
  exact ⟨by decide, by decide⟩

/-- C3 (amended): for `len(first_ids) = 5`, `len(pair_ids) = 20`,
`max_seq_len = 12`, `stride = 2` and special overhead 4,
`batch_encode` computes `max_len_for_pair = 3` and emits exactly 18
windows (step `3 - 2 = 1`, so `1 + ceil((20 - 3) / 1) = 18`), and the
last emitted window's `overflow_to_sample` equals the item's batch
index. -/
theorem slidingEncode_example_amended (exampleId : Nat) :
    maxLenForPair 12 (List.range 5).length 4 = 3 ∧
    (slidingEncode defaultConfig 12 2 4 (List.range 5) (List.replicate 5 (0, 0))
        exampleId 21 (List.range 20) (List.replicate 20 (0, 0))).map List.length =
      some 18 ∧
    ((slidingEncode defaultConfig 12 2 4 (List.range 5) (List.replicate 5 (0, 0))
        exampleId 21 (List.range 20) (List.replicate 20 (0, 0))).bind
      List.getLast?).map EncodedExample.overflow_to_sample = some exampleId := by
  exact ⟨rfl, rfl, rfl⟩

/-! ## Claim C7: unknown-token substitution in `custom_tokenize` -/

/-- `FunnelTokenizer._tokenize` (source lines 129-142): basic
tokenization into coarse words followed by WordPiece segmentation of
each word.  The basic and WordPiece tokenizers are external
capabilities, passed as functions. -/
def tokenizeFlat (basicTokenize wordpieceTokenize : String → List String)
    (text : String) : List String :=
  (basicTokenize text).flatMap (fun token => wordpieceTokenize token)

/-- `FunnelTokenizer.custom_tokenize` (source lines 598-603): like
`_tokenize` but any subword equal to the unknown token is replaced by
the coarse token it came from.  `rematch` (source line 570) searches
exactly this token list in the normalized text. -/
def customTokenize (basicTokenize wordpieceTokenize : String → List String)
    (unkToken : String) (text : String) : List String :=
  (basicTokenize text).flatMap
    (fun token => (wordpieceTokenize token).map
      (fun subToken => if subToken = unkToken then token else subToken))

/-- Each produced subword paired with the coarse word that produced it
(claim-side bookkeeping used to state C7). -/
def subwordsWithSource (basicTokenize wordpieceTokenize : String → List String)
    (text : String) : List (String × String) :=
  (basicTokenize text).flatMap
    (fun token => (wordpieceTokenize token).map (fun subToken => (subToken, token)))

/-- C7: the token sequence `rematch` searches for
(`custom_tokenize`) is the WordPiece output in which every position
whose subword degenerated to the unknown marker carries the original
coarse word from the basic tokenizer at that position, while every
other position carries the subword unchanged: position by position it
is the image of `subwordsWithSource`, whose first components are
exactly `_tokenize`'s output. -/
theorem customTokenize_spec (basicTokenize wordpieceTokenize : String → List String)
    (unkToken : String) (text : String) :
    customTokenize basicTokenize wordpieceTokenize unkToken text =
      (subwordsWithSource basicTokenize wordpieceTokenize text).map
        (fun p => if p.1 = unkToken then p.2 else p.1) ∧
    (subwordsWithSource basicTokenize wordpieceTokenize text).map Prod.fst =
      tokenizeFlat basicTokenize wordpieceTokenize text := by
  constructor
  · rw [customTokenize, subwordsWithSource, List.map_flatMap]
    congr 1
    funext token
    rw [List.map_map]
    rfl
  · rw [subwordsWithSource, tokenizeFlat, List.map_flatMap]
    congr 1
    funext token
    rw [List.map_map]
    exact List.map_id _

/-! ## Claim C8: the character mapping built by `rematch` -/

/-- Normalization loop of `rematch` (source lines 572-583): each source
character expands to zero or more normalized characters (lower-casing,
NFD decomposition, combining-mark removal and control-character
removal are external Unicode capabilities, abstracted as the
per-character expansion `normChar`); the loop accumulates the
normalized text and, for every emitted character, records the index of
the source character it came from.  `i` is the index of the head of
`text` in the original string. -/
def rematchNormalize (normChar : Char → List Char) :
    Nat → List Char → List Char × List Nat
  | _, [] => ([], [])
  | i, c :: cs =>
    let e := normChar c
    let r := rematchNormalize normChar (i+1) cs
    (e ++ r.1, List.replicate e.length i ++ r.2)

theorem getD_mem_of_lt {α : Type} (l : List α) (n : Nat) (d : α)
    (h : n < l.length) : l.getD n d ∈ l := by
  rw [List.getD_eq_get l d h]
  exact List.get_mem l n h

theorem getD_replicate_of_lt {α : Type} (n m : Nat) (a d : α) (h : m < n) :
    (List.replicate n a).getD m d = a := by
  simp [List.getD_eq_getElem?_getD, List.getElem?_replicate, h]

/-- Structure of the `rematch` normalization loop, generalized over the
start index `i`: the mapping has one entry per normalized character;
every entry is an in-range source index at or past `i`; the normalized
character at position `k` is one of the characters the source
character at index `mapping[k]` expands to; and the mapping is
monotonically non-decreasing. -/
theorem rematchNormalize_spec (normChar : Char → List Char) :
    ∀ (cs : List Char) (i : Nat),
    (rematchNormalize normChar i cs).2.length =
      (rematchNormalize normChar i cs).1.length ∧
    (∀ x ∈ (rematchNormalize normChar i cs).2, i ≤ x ∧ x < i + cs.length) ∧
    (∀ k, k < (rematchNormalize normChar i cs).2.length →
      (rematchNormalize normChar i cs).1.getD k 'a' ∈
        normChar (cs.getD ((rematchNormalize normChar i cs).2.getD k 0 - i) 'a')) ∧
    (rematchNormalize normChar i cs).2.Pairwise (· ≤ ·) := by
  intro cs
  induction cs with
  | nil =>
    intro i
    refine ⟨rfl, ?_, ?_, List.Pairwise.nil⟩
    · intro x hx
      exact absurd hx (by simp [rematchNormalize])
    · intro k hk
      exact absurd hk (by simp [rematchNormalize])
  | cons c cs ih =>
    intro i
    obtain ⟨ihlen, ihmem, ihent, ihmono⟩ := ih (i+1)
    have hfst : (rematchNormalize normChar i (c :: cs)).1 =
        normChar c ++ (rematchNormalize normChar (i+1) cs).1 := rfl
    have hsnd : (rematchNormalize normChar i (c :: cs)).2 =
        List.replicate (normChar c).length i ++
          (rematchNormalize normChar (i+1) cs).2 := rfl
    refine ⟨?_, ?_, ?_, ?_⟩
    · rw [hfst, hsnd]
      simp [ihlen]
    · intro x hx
      rw [hsnd, List.mem_append] at hx
      cases hx with
      | inl hx =>
        have := List.eq_of_mem_replicate hx
        subst this
        simp
      | inr hx =>
        have := ihmem x hx
        constructor
        · omega
        · simp only [List.length_cons]
          omega
    · intro k hk
      rw [hsnd] at hk
      rw [List.length_append, List.length_replicate] at hk
      by_cases hke : k < (normChar c).length
      · rw [hfst, hsnd]
        rw [List.getD_append _ _ _ _ (by simpa using hke),
          List.getD_append _ _ _ _ (by simpa using hke)]
        rw [getD_replicate_of_lt _ _ _ _ hke]
        rw [Nat.sub_self]
        simp only [List.getD_cons_zero]
        exact getD_mem_of_lt _ _ _ hke
      · have hke2 : (normChar c).length ≤ k := by omega
        rw [hfst, hsnd]
        rw [List.getD_append_right _ _ _ _ (by simpa using hke2),
          List.getD_append_right _ _ _ _ (by simpa using hke2)]
        simp only [List.length_replicate]
        have hk2 : k - (normChar c).length <
            (rematchNormalize normChar (i+1) cs).2.length := by omega
        have hx : (rematchNormalize normChar (i+1) cs).2.getD
            (k - (normChar c).length) 0 ∈ (rematchNormalize normChar (i+1) cs).2 :=
          getD_mem_of_lt _ _ _ hk2
        have hxb := ihmem _ hx
        have hidx : (rematchNormalize normChar (i+1) cs).2.getD
            (k - (normChar c).length) 0 - i =
            ((rematchNormalize normChar (i+1) cs).2.getD
              (k - (normChar c).length) 0 - (i+1)) + 1 := by omega
        rw [hidx]
        simp only [List.getD_cons_succ]
        exact ihent (k - (normChar c).length) hk2
    · rw [hsnd]
      refine List.pairwise_append.mpr ⟨?_, ihmono, ?_⟩
      · exact List.pairwise_replicate.mpr (Or.inr (le_refl i))
      · intro x hx y hy
        have hxe := List.eq_of_mem_replicate hx
        subst hxe
        have := ihmem y hy
        omega

/-- C8: the `char_mapping` array built by `rematch` has one entry per
character of the normalized text; entry `k` holds an in-range index of
the original-text character that produced normalized character `k`
(the normalized character belongs to that source character's
expansion); and the array is monotonically non-decreasing. -/
theorem rematch_charMapping_spec (normChar : Char → List Char) (text : List Char) :
    (rematchNormalize normChar 0 text).2.length =
      (rematchNormalize normChar 0 text).1.length ∧
    (∀ k, k < (rematchNormalize normChar 0 text).2.length →
      (rematchNormalize normChar 0 text).2.getD k 0 < text.length ∧
      (rematchNormalize normChar 0 text).1.getD k 'a' ∈
        normChar (text.getD ((rematchNormalize normChar 0 text).2.getD k 0) 'a')) ∧
    (rematchNormalize normChar 0 text).2.Pairwise (· ≤ ·) := by
  obtain ⟨hlen, hmem, hent, hmono⟩ := rematchNormalize_spec normChar text 0
  refine ⟨hlen, ?_, hmono⟩
  intro k hk
  constructor
  · have hx : (rematchNormalize normChar 0 text).2.getD k 0 ∈
        (rematchNormalize normChar 0 text).2 := getD_mem_of_lt _ _ _ hk
    have := hmem _ hx
    omega
  · have := hent k hk
    rwa [Nat.sub_zero] at this

/-- Witness for C8 with the identity expansion over a two-character
text. -/
theorem rematch_charMapping_spec_witness :
    ((rematchNormalize (fun c => [c]) 0 ['a', 'b']).2.length =
      (rematchNormalize (fun c => [c]) 0 ['a', 'b']).1.length) ∧
    (0 < (rematchNormalize (fun c => [c]) 0 ['a', 'b']).2.length) ∧
    ((rematchNormalize (fun c => [c]) 0 ['a', 'b']).2.getD 0 0 <
      (['a', 'b'] : List Char).length ∧
      (rematchNormalize (fun c => [c]) 0 ['a', 'b']).1.getD 0 'a' ∈
        (fun c => [c])
          ((['a', 'b'] : List Char).getD
            ((rematchNormalize (fun c => [c]) 0 ['a', 'b']).2.getD 0 0) 'a')) ∧
    (rematchNormalize (fun c => [c]) 0 ['a', 'b']).2.Pairwise (· ≤ ·) := by
  have h := rematch_charMapping_spec (fun c => [c]) ['a', 'b']
  exact ⟨h.1, by decide, h.2.1 0 (by decide), h.2.2⟩
